import Mathlib

/-!
Verification of the tic-tac-toe game logic in `src/index.js`: the pure win
calculator `calculateWinner` and the `Game` component's state machine
(`handleClick` for moves, `jumpTo` for time travel), embedded shallowly.
JavaScript arrays of cells become Lean lists; `null` cells become `none`;
out-of-range reads (which are falsy `undefined` in JS) become `List.getD`
with default `none`.
-/

set_option autoImplicit false

namespace TicTacToe

/-- A player mark: the JS strings 'X' and 'O'. -/
inductive Mark where
  | X : Mark
  | O : Mark
deriving DecidableEq

/-- A cell of the board: `null` in JS is `none`. -/
abbrev Cell := Option Mark

/-- A board: the JS `squares` array of 9 cells. -/
abbrev Board := List Cell

/-- The `lines` constant of `calculateWinner`: 3 rows, 3 columns, 2 diagonals. -/
def winLines : List (Nat × Nat × Nat) :=
  [(0, 1, 2), (3, 4, 5), (6, 7, 8), (0, 3, 6), (1, 4, 7), (2, 5, 8), (0, 4, 8), (2, 4, 6)]

/-- The loop-body test of `calculateWinner` for one line `[a, b, c]`:
`squares[a] && squares[a] === squares[b] && squares[a] === squares[c]`,
returning `squares[a]` when it holds. -/
def lineWins (squares : Board) : Nat × Nat × Nat → Option Mark
  | (a, b, c) =>
    match squares.getD a none with
    | none => none
    | some m =>
      if squares.getD b none = some m ∧ squares.getD c none = some m then some m else none

/-- The `for` loop of `calculateWinner`: return on the first line whose test
passes, `null` after the last line. -/
def checkLines (squares : Board) : List (Nat × Nat × Nat) → Option Mark
  | [] => none
  | l :: rest =>
    match lineWins squares l with
    | some m => some m
    | none => checkLines squares rest

/-- `calculateWinner(squares)` from `src/index.js`. -/
def calculateWinner (squares : Board) : Option Mark :=
  checkLines squares winLines

/-- One history entry: the JS object `{ squares: ... }`. -/
structure Entry where
  squares : Board
deriving DecidableEq

/-- The `Game` component's `this.state`. -/
structure GameState where
  history : List Entry
  stepNumber : Nat
  xIsNext : Bool
deriving DecidableEq

/-- The state installed by the `Game` constructor. -/
def initialState : GameState :=
  { history := [⟨List.replicate 9 none⟩], stepNumber := 0, xIsNext := true }

/-- `Game.handleClick(i)`: truncate history to the current step, check the
winner/occupied guard on the current board, and otherwise append the clone
with cell `i` set and advance the pointer. -/
def handleClick (s : GameState) (i : Nat) : GameState :=
  let history := s.history.take (s.stepNumber + 1)
  let squares := (history.getD (history.length - 1) ⟨[]⟩).squares
  if calculateWinner squares ≠ none ∨ squares.getD i none ≠ none then
    s
  else
    { history := history ++ [⟨squares.set i (some (if s.xIsNext then Mark.X else Mark.O))⟩],
      stepNumber := history.length,
      xIsNext := !s.xIsNext }

/-- `Game.jumpTo(step)`: set the pointer and derive parity from it. -/
def jumpTo (s : GameState) (step : Nat) : GameState :=
  { s with stepNumber := step, xIsNext := step % 2 == 0 }

/-- The board at the current step pointer, `history[this.state.stepNumber].squares`
as read in `Game.render`. -/
def currentBoard (s : GameState) : Board :=
  (s.history.getD s.stepNumber ⟨[]⟩).squares

/-- The label text produced in `Game.render` for history index `move`:
the JS ternary `move ? \x60Go to move # ${move}\x60 : \x60Go to game start\x60`. -/
def moveLabel (move : Nat) : String :=
  if move ≠ 0 then "Go to move # " ++ toString move else "Go to game start"

/-- The `moves` derivation in `Game.render`: one (label, jump target) pair per
history entry, the target being the step passed to `this.jumpTo`. -/
def movesList (s : GameState) : List (String × Nat) :=
  s.history.mapIdx (fun move _ => (moveLabel move, move))

/-- States reachable from the constructor's state by clicks and in-bounds jumps
(the move-list UI only ever offers indices of existing history entries). -/
inductive Reachable : GameState → Prop where
  | init : Reachable initialState
  | move (s : GameState) (i : Nat) : Reachable s → Reachable (handleClick s i)
  | jump (s : GameState) (k : Nat) : Reachable s → k < s.history.length → Reachable (jumpTo s k)

/-- A board used below: full, no winning triple (a draw). -/
def drawBoard : Board :=
  [some Mark.X, some Mark.O, some Mark.X,
   some Mark.X, some Mark.O, some Mark.O,
   some Mark.O, some Mark.X, some Mark.X]

/-- A board used below: X across the top row, two O marks (Scenario 2). -/
def boardRowX : Board :=
  [some Mark.X, some Mark.X, some Mark.X,
   some Mark.O, some Mark.O, none,
   none, none, none]

/-- The board of the spec's Scenario 3 as literally written:
`[X,O,X,X,O,_,O,_,X]`. Its O marks sit at indices 1, 4 and 6. -/
def scenario3Board : Board :=
  [some Mark.X, some Mark.O, some Mark.X,
   some Mark.X, some Mark.O, none,
   some Mark.O, none, some Mark.X]

/-- The Scenario 3 board with the third O at index 7 instead of 6, so that
column 1 (indices 1, 4, 7) really is O, O, O. -/
def scenario3BoardFixed : Board :=
  [some Mark.X, some Mark.O, some Mark.X,
   some Mark.X, some Mark.O, none,
   none, some Mark.O, some Mark.X]

lemma checkLines_eq_none (squares : Board) (L : List (Nat × Nat × Nat))
    (h : ∀ l ∈ L, lineWins squares l = none) : checkLines squares L = none := by
  induction L with
  | nil => rfl
  | cons l rest ih =>
    have hl : lineWins squares l = none := h l (by simp)
    simp only [checkLines, hl]
    exact ih fun x hx => h x (by simp [hx])

lemma checkLines_append (squares : Board) (L1 L2 : List (Nat × Nat × Nat))
    (h : ∀ l ∈ L1, lineWins squares l = none) :
    checkLines squares (L1 ++ L2) = checkLines squares L2 := by
  induction L1 with
  | nil => rfl
  | cons l rest ih =>
    have hl : lineWins squares l = none := h l (by simp)
    simp only [List.cons_append, checkLines, hl]
    exact ih fun x hx => h x (by simp [hx])

/-- C1: for every 9-cell board holding a full matching triple,
`calculateWinner` returns the mark of the first fully matching triple in the
fixed order of `winLines`. -/
theorem calculateWinner_first_matching_triple (squares : Board)
    (_hlen : squares.length = 9)
    (pre post : List (Nat × Nat × Nat)) (l : Nat × Nat × Nat) (m : Mark)
    (hsplit : winLines = pre ++ l :: post)
    (hpre : ∀ x ∈ pre, lineWins squares x = none)
    (hl : lineWins squares l = some m) :
    calculateWinner squares = some m := by
  unfold calculateWinner
  rw [hsplit, checkLines_append squares pre (l :: post) hpre]
  simp only [checkLines, hl]

/-- Witness for C1: the top-row board of Scenario 2 wins for X via the first line. -/
theorem calculateWinner_first_matching_triple_witness :
    lineWins boardRowX (0, 1, 2) = some Mark.X ∧
    calculateWinner boardRowX = some Mark.X :=
  ⟨by decide,
   calculateWinner_first_matching_triple boardRowX (by decide) []
     [(3, 4, 5), (6, 7, 8), (0, 3, 6), (1, 4, 7), (2, 5, 8), (0, 4, 8), (2, 4, 6)]
     (0, 1, 2) Mark.X rfl (by simp) (by decide)⟩

/-- C2: when no triple fully matches, `calculateWinner` returns `none`; in
particular on the all-empty board and on a full draw board. Its result type
has no draw value distinct from `none`. -/
theorem calculateWinner_none_of_no_triple (squares : Board)
    (h : ∀ l ∈ winLines, lineWins squares l = none) :
    calculateWinner squares = none ∧
    calculateWinner (List.replicate 9 none) = none ∧
    calculateWinner drawBoard = none :=
  ⟨checkLines_eq_none squares winLines h, by decide, by decide⟩

/-- Witness for C2: the all-empty board satisfies the no-triple hypothesis. -/
theorem calculateWinner_none_of_no_triple_witness :
    (∀ l ∈ winLines, lineWins (List.replicate 9 (none : Cell)) l = none) ∧
    calculateWinner (List.replicate 9 (none : Cell)) = none :=
  ⟨by decide, (calculateWinner_none_of_no_triple _ (by decide)).1⟩

lemma getD_take_of_lt {α : Type} (l : List α) (n i : Nat) (d : α) (h : i < n) :
    (l.take n).getD i d = l.getD i d := by
  simp [List.getD_eq_getElem?_getD, List.getElem?_take, h]

lemma take_length_of_lt {α : Type} (l : List α) (n : Nat) (h : n < l.length) :
    (l.take (n + 1)).length = n + 1 := by
  simp only [List.length_take]
  omega

lemma bool_parity_flip (n : Nat) : (!(n % 2 == 0)) = ((n + 1) % 2 == 0) := by
  rcases Nat.mod_two_eq_zero_or_one n with h | h <;> simp [Nat.add_mod, h]

/-- The board `handleClick` checks and clones is the board at the current
step pointer, provided the pointer is in bounds. -/
lemma handleClick_board (s : GameState) (h : s.stepNumber < s.history.length) :
    ((s.history.take (s.stepNumber + 1)).getD
        ((s.history.take (s.stepNumber + 1)).length - 1) ⟨[]⟩).squares =
      currentBoard s := by
  rw [take_length_of_lt s.history s.stepNumber h]
  simp only [Nat.add_sub_cancel]
  rw [getD_take_of_lt s.history (s.stepNumber + 1) s.stepNumber ⟨[]⟩ (Nat.lt_succ_self _)]
  rfl

/-- `handleClick` when the guard fires: the early `return`, leaving the state
untouched. -/
lemma handleClick_guard_eq (s : GameState) (i : Nat)
    (h : s.stepNumber < s.history.length)
    (hg : calculateWinner (currentBoard s) ≠ none ∨ (currentBoard s).getD i none ≠ none) :
    handleClick s i = s := by
  simp only [handleClick]
  rw [handleClick_board s h, if_pos hg]

/-- `handleClick` when the guard does not fire: truncate, append the clone
with cell `i` set to the current player's mark, advance the pointer, flip
the parity flag. -/
lemma handleClick_accepted_eq (s : GameState) (i : Nat)
    (h : s.stepNumber < s.history.length)
    (hw : calculateWinner (currentBoard s) = none)
    (hc : (currentBoard s).getD i none = none) :
    handleClick s i =
      { history := s.history.take (s.stepNumber + 1) ++
          [⟨(currentBoard s).set i (some (if s.xIsNext then Mark.X else Mark.O))⟩],
        stepNumber := s.stepNumber + 1,
        xIsNext := !s.xIsNext } := by
  simp only [handleClick]
  rw [handleClick_board s h, if_neg (by simp only [hw, hc]; simp)]
  rw [take_length_of_lt s.history s.stepNumber h]

/-- The state invariant maintained by the `Game` component: the pointer is in
bounds, the stored parity flag agrees with the pointer's parity, and every
stored board has 9 cells. -/
def Inv (s : GameState) : Prop :=
  s.stepNumber < s.history.length ∧
  s.xIsNext = (s.stepNumber % 2 == 0) ∧
  ∀ e ∈ s.history, e.squares.length = 9

lemma currentBoard_length (s : GameState) (hinv : Inv s) :
    (currentBoard s).length = 9 := by
  unfold currentBoard
  rw [List.getD_eq_getElem s.history ⟨[]⟩ hinv.1]
  exact hinv.2.2 _ (List.getElem_mem hinv.1)

lemma inv_initialState : Inv initialState := by
  refine ⟨by decide, by decide, ?_⟩
  intro e he
  simp only [initialState, List.mem_singleton] at he
  subst he
  rfl

lemma inv_jumpTo (s : GameState) (k : Nat) (hinv : Inv s) (hk : k < s.history.length) :
    Inv (jumpTo s k) :=
  ⟨hk, rfl, hinv.2.2⟩

lemma inv_handleClick (s : GameState) (i : Nat) (hinv : Inv s) :
    Inv (handleClick s i) := by
  by_cases hg : calculateWinner (currentBoard s) ≠ none ∨ (currentBoard s).getD i none ≠ none
  · rw [handleClick_guard_eq s i hinv.1 hg]
    exact hinv
  · push_neg at hg
    rw [handleClick_accepted_eq s i hinv.1 hg.1 hg.2]
    refine ⟨?_, ?_, ?_⟩
    · simp only [List.length_append, take_length_of_lt s.history s.stepNumber hinv.1,
        List.length_singleton]
      omega
    · show (!s.xIsNext) = ((s.stepNumber + 1) % 2 == 0)
      rw [hinv.2.1, bool_parity_flip]
    · intro e he
      rcases List.mem_append.1 he with he | he
      · exact hinv.2.2 e (List.take_subset _ _ he)
      · rcases List.mem_singleton.1 he with rfl
        simp only [List.length_set]
        exact currentBoard_length s hinv

lemma reachable_inv (s : GameState) (hr : Reachable s) : Inv s := by
  induction hr with
  | init => exact inv_initialState
  | move t i _ ih => exact inv_handleClick t i ih
  | jump t k _ hk ih => exact inv_jumpTo t k ih hk

/-- C3 counterexample: on the board `[X,O,X,X,O,_,O,_,X]` exactly as the spec
writes it, `calculateWinner` returns `none`, not `O` — the O marks are at
indices 1, 4 and 6, so column 1 (indices 1, 4, 7) is O, O, Empty and no line
matches. -/
theorem calculateWinner_scenario3_as_written :
    calculateWinner scenario3Board = none := by
  decide

/-- C3 amended: with the third O at index 7 (so column 1 is O, O, O as the
scenario intends), `calculateWinner` returns `O`. -/
theorem calculateWinner_scenario3_fixed :
    calculateWinner scenario3BoardFixed = some Mark.O := by
  decide

/-- The state after the clicks 0, 1, 4 from a fresh game (Scenario 6 setup). -/
def threeMoveState : GameState :=
  handleClick (handleClick (handleClick initialState 0) 1) 4

/-- The state after the clicks 0, 1, 3, 4, 6 from a fresh game: X holds the
left column (Scenario 5). -/
def wonState : GameState :=
  handleClick (handleClick (handleClick (handleClick (handleClick initialState 0) 1) 3) 4) 6

/-- The state after jumping back to step 2 of the won game. -/
def backState : GameState :=
  jumpTo wonState 2

lemma reachable_threeMoveState : Reachable threeMoveState :=
  Reachable.move _ 4 (Reachable.move _ 1 (Reachable.move _ 0 Reachable.init))

lemma reachable_wonState : Reachable wonState :=
  Reachable.move _ 6 (Reachable.move _ 4 (Reachable.move _ 3
    (Reachable.move _ 1 (Reachable.move _ 0 Reachable.init))))

lemma reachable_backState : Reachable backState :=
  Reachable.jump _ 2 reachable_wonState (by decide)

/-- C4: in a reachable state, clicking when the board at the current step
already has a winner, or clicking an occupied cell, is a silent no-op:
`handleClick` returns the state with history, pointer and parity unchanged. -/
theorem applyMove_noop_of_winner_or_occupied (s : GameState) (hr : Reachable s) (i : Nat)
    (hg : calculateWinner (currentBoard s) ≠ none ∨ (currentBoard s).getD i none ≠ none) :
    handleClick s i = s :=
  handleClick_guard_eq s i (reachable_inv s hr).1 hg

/-- Witness for C4: after X wins via moves 0,1,3,4,6, clicking empty cell 2
changes nothing; clicking the occupied cell 0 after three moves also changes
nothing. -/
theorem applyMove_noop_of_winner_or_occupied_witness :
    (calculateWinner (currentBoard wonState) ≠ none ∨
      (currentBoard wonState).getD 2 none ≠ none) ∧
    handleClick wonState 2 = wonState ∧
    handleClick threeMoveState 0 = threeMoveState :=
  ⟨by decide,
   applyMove_noop_of_winner_or_occupied wonState reachable_wonState 2 (by decide),
   applyMove_noop_of_winner_or_occupied threeMoveState reachable_threeMoveState 0 (by decide)⟩

/-- C5: from a reachable state, jumping to step `k` strictly before the last
entry and then making an accepted move produces a history of length `k + 2`
whose first `k + 1` entries are the old ones, the discarded tail replaced by
the single new entry, with the pointer at `k + 1`. -/
theorem jump_then_move_truncates (s : GameState) (_hr : Reachable s) (k i : Nat)
    (hk : k < s.history.length - 1)
    (hw : calculateWinner (currentBoard (jumpTo s k)) = none)
    (hc : (currentBoard (jumpTo s k)).getD i none = none) :
    (handleClick (jumpTo s k) i).history.length = k + 2 ∧
    (handleClick (jumpTo s k) i).history.take (k + 1) = s.history.take (k + 1) ∧
    (∃ e : Entry, (handleClick (jumpTo s k) i).history = s.history.take (k + 1) ++ [e]) ∧
    (handleClick (jumpTo s k) i).stepNumber = k + 1 := by
  have hk2 : k < s.history.length := by omega
  have hlt : (jumpTo s k).stepNumber < (jumpTo s k).history.length := hk2
  have hh := handleClick_accepted_eq (jumpTo s k) i hlt hw hc
  have htk : (s.history.take (k + 1)).length = k + 1 := take_length_of_lt s.history k hk2
  have hhist : (handleClick (jumpTo s k) i).history =
      s.history.take (k + 1) ++
        [⟨(currentBoard (jumpTo s k)).set i
            (some (if (jumpTo s k).xIsNext then Mark.X else Mark.O))⟩] :=
    congrArg GameState.history hh
  have hstep : (handleClick (jumpTo s k) i).stepNumber = k + 1 :=
    congrArg GameState.stepNumber hh
  refine ⟨?_, ?_, ⟨_, hhist⟩, hstep⟩
  · rw [hhist, List.length_append, htk]
    rfl
  · rw [hhist]
    exact List.take_left' htk

/-- Witness for C5: after three moves (history length 4), jump to step 1 and
play cell 5: history length becomes 3, the first two entries survive, and the
pointer is 2. -/
theorem jump_then_move_truncates_witness :
    threeMoveState.history.length = 4 ∧
    (handleClick (jumpTo threeMoveState 1) 5).history.length = 3 ∧
    (handleClick (jumpTo threeMoveState 1) 5).history.take 2 = threeMoveState.history.take 2 ∧
    (handleClick (jumpTo threeMoveState 1) 5).stepNumber = 2 := by
  have h := jump_then_move_truncates threeMoveState reachable_threeMoveState 1 5
    (by decide) (by decide) (by decide)
  exact ⟨by decide, h.1, h.2.1, h.2.2.2⟩

/-- C6: in every reachable state, the stored `xIsNext` flag is `true` exactly
when the step pointer is even. -/
theorem xIsNext_iff_step_even (s : GameState) (hr : Reachable s) :
    s.xIsNext = true ↔ s.stepNumber % 2 = 0 := by
  rw [(reachable_inv s hr).2.1]
  simp

/-- Witness for C6: at the reachable state jumped back to step 2 of the won
game, the flag matches the pointer's parity. -/
theorem xIsNext_iff_step_even_witness :
    backState.xIsNext = true ↔ backState.stepNumber % 2 = 0 :=
  xIsNext_iff_step_even backState reachable_backState

/-- C7: an accepted click appends exactly one new entry, a clone of the board
at the pre-move step pointer with only cell `i` changed — set to X when the
pre-move pointer is even and to O when odd — while every entry up to the
pointer is carried over unchanged. -/
theorem applyMove_appends_fresh_clone (s : GameState) (hr : Reachable s) (i : Nat)
    (hi : i < 9)
    (hw : calculateWinner (currentBoard s) = none)
    (hc : (currentBoard s).getD i none = none) :
    (handleClick s i).history =
      s.history.take (s.stepNumber + 1) ++
        [⟨(currentBoard s).set i (some (if s.stepNumber % 2 = 0 then Mark.X else Mark.O))⟩] ∧
    ((currentBoard s).set i
        (some (if s.stepNumber % 2 = 0 then Mark.X else Mark.O))).getD i none =
      some (if s.stepNumber % 2 = 0 then Mark.X else Mark.O) ∧
    (∀ j, j ≠ i →
      ((currentBoard s).set i
          (some (if s.stepNumber % 2 = 0 then Mark.X else Mark.O))).getD j none =
        (currentBoard s).getD j none) ∧
    (handleClick s i).history.take (s.stepNumber + 1) = s.history.take (s.stepNumber + 1) := by
  have hinv := reachable_inv s hr
  have hmark : (if s.xIsNext then Mark.X else Mark.O) =
      (if s.stepNumber % 2 = 0 then Mark.X else Mark.O) := by
    rw [hinv.2.1]
    by_cases h : s.stepNumber % 2 = 0 <;> simp [h]
  have hh := handleClick_accepted_eq s i hinv.1 hw hc
  rw [hmark] at hh
  have hlen9 : (currentBoard s).length = 9 := currentBoard_length s hinv
  refine ⟨by rw [hh], ?_, ?_, ?_⟩
  · rw [List.getD_eq_getElem?_getD,
      List.getElem?_set_eq_of_lt _ (show i < (currentBoard s).length by omega)]
    rfl
  · intro j hj
    rw [List.getD_eq_getElem?_getD, List.getElem?_set_ne (Ne.symm hj),
      ← List.getD_eq_getElem?_getD]
  · rw [hh]
    show (s.history.take (s.stepNumber + 1) ++ [_]).take (s.stepNumber + 1) =
      s.history.take (s.stepNumber + 1)
    exact List.take_left' (take_length_of_lt s.history s.stepNumber hinv.1)

/-- Witness for C7: the first click of a fresh game at cell 4 appends the
board with only cell 4 set, to X, and keeps the initial entry. -/
theorem applyMove_appends_fresh_clone_witness :
    (handleClick initialState 4).history =
      initialState.history.take 1 ++ [⟨(currentBoard initialState).set 4 (some Mark.X)⟩] ∧
    ((currentBoard initialState).set 4 (some Mark.X)).getD 4 none = some Mark.X ∧
    ((currentBoard initialState).set 4 (some Mark.X)).getD 0 none =
      (currentBoard initialState).getD 0 none := by
  have h := applyMove_appends_fresh_clone initialState Reachable.init 4
    (by decide) (by decide) (by decide)
  exact ⟨h.1, h.2.1, h.2.2.1 0 (by omega)⟩

/-- C8: `jumpTo k` for an in-bounds step sets the pointer to `k`, derives the
parity flag from the parity of `k`, and leaves the history untouched. -/
theorem jumpTo_sets_pointer_parity_only (s : GameState) (k : Nat)
    (_hk : k ≤ s.history.length - 1) :
    (jumpTo s k).stepNumber = k ∧
    ((jumpTo s k).xIsNext = true ↔ k % 2 = 0) ∧
    (jumpTo s k).history = s.history := by
  refine ⟨rfl, ?_, rfl⟩
  show ((k % 2 == 0) = true ↔ k % 2 = 0)
  simp

/-- Witness for C8: jumping the won game to step 3 sets the pointer to the odd
step 3, turns the flag off, and keeps the history. -/
theorem jumpTo_sets_pointer_parity_only_witness :
    (jumpTo wonState 3).stepNumber = 3 ∧
    ((jumpTo wonState 3).xIsNext = true ↔ 3 % 2 = 0) ∧
    (jumpTo wonState 3).history = wonState.history :=
  jumpTo_sets_pointer_parity_only wonState 3 (by decide)

/-- C9 counterexample: the first derived move label is the capitalised
"Go to game start", not "go to game start" as the claim spells it. -/
theorem movesList_label_counterexample :
    (movesList initialState).getD 0 ("", 0) ≠ ("go to game start", 0) := by
  decide

/-- C9 amended: the move list has one pair per history entry; index 0 is
labelled "Go to game start", index `i > 0` is labelled "Go to move # i" (with
a space between `#` and the number), and the jump target bound at index `i`
is `i` itself. -/
theorem movesList_labels (s : GameState) :
    (movesList s).length = s.history.length ∧
    ∀ i, i < s.history.length →
      (movesList s).getD i ("", 0) =
        ((if i = 0 then "Go to game start" else "Go to move # " ++ toString i), i) := by
  constructor
  · simp [movesList, List.length_mapIdx]
  · intro i hi
    have hlen : i < (movesList s).length := by
      simpa [movesList, List.length_mapIdx] using hi
    rw [List.getD_eq_getElem (movesList s) ("", 0) hlen]
    simp only [movesList, List.getElem_mapIdx]
    by_cases h : i = 0 <;> simp [moveLabel, h]

/-- Witness for C9 (amended): the first entry of a fresh game's move list is
("Go to game start", 0). -/
theorem movesList_labels_witness :
    (movesList initialState).getD 0 ("", 0) = ("Go to game start", 0) := by
  have h := (movesList_labels initialState).2 0 (by decide)
  simpa using h

/-- C10: the winner guard reads only the board at the current step pointer:
in any reachable state whose current board has no winner, a click on an empty
cell is accepted — truncating, appending and advancing — regardless of any
winning entry later in the history. -/
theorem winner_guard_reads_current_board (s : GameState) (hr : Reachable s) (i : Nat)
    (_hi : i < 9)
    (hw : calculateWinner (currentBoard s) = none)
    (hc : (currentBoard s).getD i none = none) :
    (handleClick s i).stepNumber = s.stepNumber + 1 ∧
    (handleClick s i).history.length = s.stepNumber + 2 ∧
    (handleClick s i).history =
      s.history.take (s.stepNumber + 1) ++
        [⟨(currentBoard s).set i (some (if s.xIsNext then Mark.X else Mark.O))⟩] := by
  have hinv := reachable_inv s hr
  have hh := handleClick_accepted_eq s i hinv.1 hw hc
  refine ⟨by rw [hh], ?_, by rw [hh]⟩
  rw [hh]
  show (s.history.take (s.stepNumber + 1) ++ [_]).length = s.stepNumber + 2
  rw [List.length_append, take_length_of_lt s.history s.stepNumber hinv.1]
  rfl

/-- Witness for C10: the won game's final entry has winner X, yet after
jumping back to step 2 (no winner there) a click on empty cell 2 is accepted
and advances the pointer. -/
theorem winner_guard_reads_current_board_witness :
    calculateWinner ((backState.history.getD 5 ⟨[]⟩).squares) = some Mark.X ∧
    calculateWinner (currentBoard backState) = none ∧
    (handleClick backState 2).stepNumber = 3 ∧
    (handleClick backState 2).history.length = 4 := by
  have h := winner_guard_reads_current_board backState reachable_backState 2
    (by decide) (by decide) (by decide)
  refine ⟨by decide, by decide, ?_, ?_⟩
  · rw [h.1]
    decide
  · rw [h.2.1]
    decide

end TicTacToe
